import Mathlib

/-!
Verification development for the bitmapist library (src/bitmapist/__init__.py,
Python 2).  The code talks to a Redis store; here the store primitives
(GETBIT, BITCOUNT, SETBIT, BITOP, EXPIRE) are modelled explicitly and the
library functions are translated one by one.  Python 2 integer division `/`
is floor division, so it is rendered with `Int.fdiv`; `xrange` is rendered by
`pyRange`; Python truthiness of an optional integer argument is rendered by
`falsy`.
-/

namespace Bitmapist

/-- Errors a call can raise: a Python `TypeError` (for example `None + 7`),
a Python `ValueError` (`raise ValueError(...)` in the marking code), or an
error reply coming back from the Redis server (bad GETBIT offset, bad BITOP
arity). -/
inductive PyErr where
  | typeError
  | valueError
  | responseError
  deriving DecidableEq, Repr

instance {ε α : Type} [DecidableEq ε] [DecidableEq α] : DecidableEq (Except ε α) := fun x y =>
  match x, y with
  | .ok a, .ok b =>
      match decEq a b with
      | isTrue h => isTrue (by rw [h])
      | isFalse h => isFalse (by intro hh; cases hh; exact h rfl)
  | .error a, .error b =>
      match decEq a b with
      | isTrue h => isTrue (by rw [h])
      | isFalse h => isFalse (by intro hh; cases hh; exact h rfl)
  | .ok _, .error _ => isFalse (by intro hh; cases hh)
  | .error _, .ok _ => isFalse (by intro hh; cases hh)

/-- One Redis value of string type, viewed as a bit array: a byte length and
the bit content.  Bit offset `i` lives in byte `i / 8`; offsets at or beyond
`8 * nbytes` read as 0, matching Redis GETBIT on a short string. -/
structure RBitmap where
  nbytes : Nat
  bitf : Nat → Bool

/-- The empty value (missing key reads as an empty string in Redis). -/
def emptyBitmap : RBitmap := ⟨0, fun _ => false⟩

/-- Bit read at a non-negative offset, with the out-of-string mask. -/
def getbitNat (m : RBitmap) (i : Nat) : Nat :=
  if i < 8 * m.nbytes ∧ m.bitf i then 1 else 0

/-- Redis GETBIT: the server rejects a negative offset with an error reply,
otherwise bits past the end of the string read as 0. -/
def getbit (m : RBitmap) (i : Int) : Except PyErr Nat :=
  if i < 0 then .error .responseError else .ok (getbitNat m i.toNat)

/-- Redis BITCOUNT with no range: population count of the whole string. -/
def bitcountWhole (m : RBitmap) : Nat :=
  (List.range (8 * m.nbytes)).countP fun i => m.bitf i

/-- Number of set bits inside bytes `a..b` (inclusive, already normalized). -/
def byteRangeCount (m : RBitmap) (a b : Nat) : Nat :=
  (List.range (8 * (b + 1 - a))).countP fun j => m.bitf (8 * a + j)

/-- Redis BITCOUNT with a byte range: negative indices are taken from the end
of the string, then both ends are clamped into the string, and a crossed
range counts as 0.  This follows the reference server implementation. -/
def bitcountRange (m : RBitmap) (s e : Int) : Nat :=
  let n : Int := (m.nbytes : Int)
  let s1 : Int := if s < 0 then s + n else s
  let e1 : Int := if e < 0 then e + n else e
  let s2 : Int := max s1 0
  let e2 : Int := min (max e1 0) (n - 1)
  if m.nbytes = 0 ∨ s2 > e2 then 0
  else byteRangeCount m s2.toNat e2.toNat

/-- Length of the Python sequence `xrange(start, stop, step)` for a nonzero
step: empty when the walk immediately passes `stop`. -/
def pyRangeLen (start stop step : Int) : Nat :=
  if step > 0 then ((stop - start + step - 1).fdiv step).toNat
  else ((start - stop + (-step) - 1).fdiv (-step)).toNat

/-- The Python sequence `xrange(start, stop, step)` as a list. -/
def pyRange (start stop step : Int) : List Int :=
  (List.range (pyRangeLen start stop step)).map fun i => start + step * (i : Int)

/-- Sum of GETBIT over a list of offsets, stopping at the first server
error, as the accumulation loops in `get_count` do. -/
def exGetbitSum (m : RBitmap) : List Int → Except PyErr Nat
  | [] => .ok 0
  | o :: rest => do
      let b ← getbit m o
      let r ← exGetbitSum m rest
      .ok (b + r)

/-- Result of `_convert_to_start_byte` / `_convert_to_end_byte`: either the
string sentinel stored in `MixinCounts.ERROR` or an integer byte index. -/
inductive ByteRes where
  | sentinel
  | byte (b : Int)
  deriving DecidableEq, Repr

/-- `MixinCounts._convert_to_start_byte`.  The argument is the raw Python
value passed in (`None` or an int).  With `bit = None`, Python 2 evaluates
`-7 <= None` to `False` (None orders below every int), so control falls to
`(bit + 7) / 8`, which raises `TypeError`. -/
def convert_to_start_byte : Option Int → Except PyErr ByteRes
  | none => .error .typeError
  | some bit =>
      if -7 ≤ bit ∧ bit < 0 then .ok .sentinel
      else .ok (.byte ((bit + 7).fdiv 8))

/-- `MixinCounts._convert_to_end_byte`.  With `bit = None`, Python 2
evaluates `None < 0` to `True`, so control reaches `(bit + 1) / 8 - 1`,
which raises `TypeError`. -/
def convert_to_end_byte : Option Int → Except PyErr ByteRes
  | none => .error .typeError
  | some bit =>
      if bit < 0 then .ok (.byte ((bit + 1).fdiv 8 - 1))
      else if bit < 7 then .ok .sentinel
      else .ok (.byte ((bit - 7).fdiv 8))

/-- Python truthiness test `not x` for an optional int argument:
true for `None` and for `0`. -/
def falsy : Option Int → Bool
  | none => true
  | some v => v == 0

/-- `MixinCounts.get_count(start_bit=None, end_bit=None)` over one bitmap.
Mirrors the source line by line: the `not start_bit and not end_bit` whole
bitmap shortcut, the two byte conversions, the three-part split (leading
per-bit loop, BITCOUNT over the aligned bytes, trailing per-bit loop) with
the `(x >= 0 and 1 or -1)` step choice, and the whole-range per-bit fallback
when a conversion returned the sentinel.  The final catch-all arm is dead
code: a `none` argument already failed inside its conversion. -/
def getCount (m : RBitmap) (start_bit end_bit : Option Int) : Except PyErr Nat :=
  if falsy start_bit && falsy end_bit then .ok (bitcountWhole m)
  else
    match convert_to_start_byte start_bit with
    | .error e => .error e
    | .ok sb =>
      match convert_to_end_byte end_bit with
      | .error e => .error e
      | .ok eb =>
        match start_bit, end_bit with
        | some s0, some e0 =>
          (match sb, eb with
           | .byte s, .byte e => do
              let bitFloor := s * 8
              let step1 : Int := if s0 ≥ 0 then 1 else -1
              let lead ← exGetbitSum m (pyRange s0 bitFloor step1)
              let mid := bitcountRange m s e
              let bitCeil := (e + 1) * 8
              let step2 : Int := if bitCeil ≥ 0 then 1 else -1
              let trail ← exGetbitSum m (pyRange bitCeil (e0 + 1) step2)
              .ok (lead + mid + trail)
           | _, _ => exGetbitSum m (pyRange s0 (e0 + 1) 1))
        | _, _ => .error .typeError

/-- Slow reference count from the spec: sum `get_bit` over every index of
the inclusive range `[s, e]`, for non-negative bounds. -/
def naiveCount (m : RBitmap) (s e : Nat) : Nat :=
  ((List.range (e + 1 - s)).map fun i => s + i).foldl
    (fun acc i => acc + getbitNat m i) 0

end Bitmapist

namespace Bitmapist

/-! Part 2: the key space, the store, marking, and bit operations -/

/-- Decimal digit character, `digitChar n = '0'` for `n = 0` and so on. -/
def digitChar (n : Nat) : Char := Char.ofNat (48 + n)

/-- Decimal digits of a natural number, most significant first.  This models
the rendering done by the percent-s formatting in the source for the
non-negative calendar coordinates. -/
def natToDigits (n : Nat) : List Char :=
  if _h : n < 10 then [digitChar n]
  else natToDigits (n / 10) ++ [digitChar (n % 10)]
  decreasing_by exact Nat.div_lt_self (by omega) (by omega)

/-- Decimal string of a natural number (model of Python `str(int)`). -/
def natStr (n : Nat) : String := ⟨natToDigits n⟩

/-- Model of Python `divider.join(parts)`. -/
def strJoin (d : String) : List String → String
  | [] => ""
  | [x] => x
  | x :: y :: rest => x ++ d ++ strJoin d (y :: rest)

/-- `_prefix_key(event_name, prefix, divider, date=None)`.  A truthy `date`
selects the event shape, otherwise the attribute shape; Python treats the
empty string as falsy. -/
def pfxKey (event_name pfx d : String) (date : Option String) : String :=
  match date with
  | some t => if t = "" then strJoin d [pfx, "at", event_name]
              else strJoin d [pfx, "ev", event_name, t]
  | none => strJoin d [pfx, "at", event_name]

/-- Month period token: year and month joined by a hyphen. -/
def monthTok (y m : Nat) : String := natStr y ++ "-" ++ natStr m

/-- Week period token: the letter W, then ISO year and ISO week joined by a hyphen. -/
def weekTok (y w : Nat) : String := "W" ++ natStr y ++ "-" ++ natStr w

/-- Day period token: year, month, day joined by hyphens. -/
def dayTok (y m d : Nat) : String := natStr y ++ "-" ++ natStr m ++ "-" ++ natStr d

/-- Hour period token: year, month, day, hour joined by hyphens. -/
def hourTok (y m d h : Nat) : String :=
  natStr y ++ "-" ++ natStr m ++ "-" ++ natStr d ++ "-" ++ natStr h

/-- Redis key of a `MonthEvents` bitmap. -/
def monthKey (n pfx d : String) (y m : Nat) : String :=
  pfxKey n pfx d (some (monthTok y m))

/-- Redis key of a `WeekEvents` bitmap. -/
def weekKey (n pfx d : String) (y w : Nat) : String :=
  pfxKey n pfx d (some (weekTok y w))

/-- Redis key of a `DayEvents` bitmap. -/
def dayKey (n pfx d : String) (y m dd : Nat) : String :=
  pfxKey n pfx d (some (dayTok y m dd))

/-- Redis key of an `HourEvents` bitmap. -/
def hourKey (n pfx d : String) (y m dd h : Nat) : String :=
  pfxKey n pfx d (some (hourTok y m dd h))

/-- Redis key of an `Attributes` bitmap. -/
def attrKey (n pfx d : String) : String := pfxKey n pfx d none

/-- The Redis database restricted to string values: key to value, `none`
meaning the key is absent. -/
def Store : Type := String → Option RBitmap

/-- One command sent to the store, recorded so that theorems can speak about
which calls were issued before a failure. -/
inductive StoreCmd where
  | setbitCmd (key : String) (idx : Nat) (v : Nat)
  | bitopCmd (op dest : String) (srcs : List String)
  | expireCmd (key : String) (ttl : Nat)
  deriving DecidableEq, Repr

/-- SETBIT on one value: the string grows to cover the touched byte even
when writing a 0, and the addressed bit is overwritten. -/
def setbitB (m : RBitmap) (i : Nat) (v : Bool) : RBitmap :=
  ⟨max m.nbytes (i / 8 + 1), fun j => if j = i then v else m.bitf j⟩

/-- SETBIT on the whole store (a missing key starts from the empty string). -/
def storeSetbit (st : Store) (k : String) (i : Nat) (v : Bool) : Store :=
  fun k' => if k' = k then some (setbitB ((st k).getD emptyBitmap) i v) else st k'

/-- `MixinContains.__contains__`: GETBIT of the identity, absent key and
out-of-string offsets read as 0. -/
def containsB (st : Store) (k : String) (u : Nat) : Bool :=
  match st k with
  | none => false
  | some m => decide (u < 8 * m.nbytes) && m.bitf u

/-- The four bucket keys touched by `Bitmapist.mark_event`, in pipeline
order month, week, day, hour, restricted to the selected granularities.
The week bucket uses the ISO calendar pair of the timestamp. -/
def markedEventKeys (pfx d n : String) (y m dd h iy iw : Nat)
    (month week day hour : Bool) : List String :=
  (if month then [monthKey n pfx d y m] else []) ++
  (if week then [weekKey n pfx d iy iw] else []) ++
  (if day then [dayKey n pfx d y m dd] else []) ++
  (if hour then [hourKey n pfx d y m dd h] else [])

/-- `Bitmapist.mark_event` without TTLs: one pipeline that SETBITs the
identity to 1 in every selected bucket. -/
def markEvent (st : Store) (pfx d n : String) (y m dd h iy iw : Nat)
    (month week day hour : Bool) (uuid : Nat) : Store :=
  (markedEventKeys pfx d n y m dd h iy iw month week day hour).foldl
    (fun s k => storeSetbit s k uuid true) st

/-- `Bitmapist.mark_attribute_multi`: validate the mark value first
(`raise ValueError` outside {0,1}, before the pipeline is touched), then
SETBIT every listed identity on the attribute key. -/
def markAttributeMulti (st : Store) (pfx d name : String) (uuids : List Nat)
    (markAs : Int) : Store × List StoreCmd × Except PyErr Unit :=
  if markAs ≠ 0 ∧ markAs ≠ 1 then (st, [], .error .valueError)
  else
    let k := attrKey name pfx d
    (uuids.foldl (fun s u => storeSetbit s k u (markAs == 1)) st,
     uuids.map (fun u => .setbitCmd k u (if markAs == 1 then 1 else 0)),
     .ok ())

/-- `Bitmapist.mark_attribute`: validate the mark value, dispatch a list
argument to the bulk variant, otherwise one SETBIT. -/
def markAttribute (st : Store) (pfx d name : String) (uuid : Nat ⊕ List Nat)
    (markAs : Int) : Store × List StoreCmd × Except PyErr Unit :=
  if markAs ≠ 0 ∧ markAs ≠ 1 then (st, [], .error .valueError)
  else
    match uuid with
    | .inr us => markAttributeMulti st pfx d name us markAs
    | .inl u =>
        let k := attrKey name pfx d
        (storeSetbit st k u (markAs == 1),
         [.setbitCmd k u (if markAs == 1 then 1 else 0)], .ok ())

/-- The four composition operations of the library surface. -/
inductive OpKind where
  | AND | OR | XOR | NOT
  deriving DecidableEq, Repr

/-- Bit read used by BITOP: absent keys and short strings contribute 0. -/
def rawBit (st : Store) (k : String) (i : Nat) : Bool :=
  match st k with
  | none => false
  | some m => decide (i < 8 * m.nbytes) && m.bitf i

/-- Value computed by BITOP over the source keys, padded to the longest
source; NOT complements its single source inside that width. -/
def bitopResult (st : Store) (kind : OpKind) (srcs : List String)
    (maxlen : Nat) : RBitmap :=
  ⟨maxlen, fun i =>
    if i < 8 * maxlen then
      match kind with
      | .AND => srcs.all fun k => rawBit st k i
      | .OR => srcs.any fun k => rawBit st k i
      | .XOR => (srcs.map fun k => rawBit st k i).foldl xor false
      | .NOT => !rawBit st (srcs.headD "") i
    else false⟩

/-- The Redis server side of BITOP: wrong arity (no source key, or NOT with
more than one source) is rejected with an error reply and no write; an
all-empty source set deletes the destination; otherwise the computed value
is stored at the destination. -/
def storeBitop (st : Store) (kind : OpKind) (dest : String)
    (srcs : List String) : Store × Except PyErr Unit :=
  if srcs = [] then (st, .error .responseError)
  else if kind = .NOT ∧ srcs.length ≠ 1 then (st, .error .responseError)
  else
    let maxlen := (srcs.map fun k => ((st k).getD emptyBitmap).nbytes).foldl max 0
    if maxlen = 0 then
      ((fun k' => if k' = dest then none else st k'), .ok ())
    else
      ((fun k' => if k' = dest then some (bitopResult st kind srcs maxlen) else st k'),
       .ok ())

/-- Destination key built by `BitOperation.__init__`: the divider joins the
prefix, the literal `bitop`, the operation name, and the hyphen-join of the
operand keys. -/
def bitopDest (pfx d opName : String) (srcs : List String) : String :=
  strJoin d [pfx, "bitop", opName, strJoin "-" srcs]

/-- `BitOperation.__init__` after the key is built: issue BITOP, and only
when it succeeded issue EXPIRE with the temporary TTL.  The store state,
the issued commands, and the outcome (derived key or error) are returned. -/
def bitOperation (st : Store) (pfx d opName : String) (kind : OpKind)
    (ttl : Nat) (srcs : List String) : Store × List StoreCmd × Except PyErr String :=
  let dest := bitopDest pfx d opName srcs
  let r := storeBitop st kind dest srcs
  match r.2 with
  | .error e => (r.1, [.bitopCmd opName dest srcs], .error e)
  | .ok _ => (r.1, [.bitopCmd opName dest srcs, .expireCmd dest ttl], .ok dest)

/-- A composition request through the `Bitmapist` surface.  `bit_op_not`
takes exactly one positional operand, so any other operand count fails in
the Python call machinery (`TypeError`) before anything is built or sent;
`bit_op_and` / `bit_op_or` / `bit_op_xor` forward any operand list. -/
def bitOpRequest (st : Store) (pfx d : String) (ttl : Nat) (kind : OpKind)
    (ops : List String) : Store × List StoreCmd × Except PyErr String :=
  match kind with
  | .NOT =>
      match ops with
      | [k] => bitOperation st pfx d "Not" .NOT ttl [k]
      | _ => (st, [], .error .typeError)
  | .AND => bitOperation st pfx d "AND" .AND ttl ops
  | .OR => bitOperation st pfx d "OR" .OR ttl ops
  | .XOR => bitOperation st pfx d "XOR" .XOR ttl ops

end Bitmapist

namespace Bitmapist

/-! Part 3: calendar neighbours, for the adjacency part of the marking claim -/

/-- Modelled from the spec: Gregorian leap year rule used by the external
`datetime` library, which is not part of the repository source. -/
def isLeap (y : Nat) : Bool := y % 4 == 0 && (y % 100 != 0 || y % 400 == 0)

/-- Modelled from the spec: days in a calendar month. -/
def daysInMonth (y m : Nat) : Nat :=
  match m with
  | 2 => if isLeap y then 29 else 28
  | 4 => 30
  | 6 => 30
  | 9 => 30
  | 11 => 30
  | _ => 31

/-- Modelled from the spec: coordinates of the previous calendar day. -/
def prevDayCoords (y m d : Nat) : Nat × Nat × Nat :=
  if 1 < d then (y, m, d - 1)
  else if 1 < m then (y, m - 1, daysInMonth y (m - 1))
  else (y - 1, 12, 31)

/-- Modelled from the spec: coordinates of the previous hour, borrowing a
day at midnight. -/
def prevHourCoords (y m d h : Nat) : Nat × Nat × Nat × Nat :=
  if 0 < h then (y, m, d, h - 1)
  else
    let p := prevDayCoords y m d
    (p.1, p.2.1, p.2.2, 23)

/-- Modelled from the spec: number of ISO weeks in a year (52 or 53, by the
standard weekday criterion). -/
def isoWeeksInYear (y : Nat) : Nat :=
  let p := fun yy => (yy + yy / 4 - yy / 100 + yy / 400) % 7
  if p y = 4 ∨ p (y - 1) = 3 then 53 else 52

/-- Modelled from the spec: the previous ISO week pair, borrowing a year at
week one. -/
def prevWeekCoords (iy iw : Nat) : Nat × Nat :=
  if 1 < iw then (iy, iw - 1) else (iy - 1, isoWeeksInYear (iy - 1))

end Bitmapist

namespace Bitmapist

-- Validation against the literal cases exercised by the repository tests:
-- a bitmap with bits 123..143 set occupies 18 bytes.
def tBits : RBitmap := ⟨18, fun i => 123 ≤ i && i ≤ 143⟩

example : getCount tBits (some 120) (some 128) = .ok 6 := by decide
example : getCount tBits (some 128) (some 136) = .ok 9 := by decide
example : getCount tBits (some 136) (some 139) = .ok 4 := by decide
example : getCount tBits (some 0) (some (-1)) = .ok 21 := by decide
example : getCount tBits none none = .ok 21 := by decide

/-! Part 4: claims about the byte conversions and the counting algorithm -/

/-- Spec side of the start conversion, written from the words of the spec:
sentinel for `-7 ≤ start < 0`, floor of `(start + 7) / 8` otherwise. -/
def startByteSpec (b : Int) : ByteRes :=
  if -7 ≤ b ∧ b < 0 then .sentinel else .byte ((b + 7).fdiv 8)

/-- Spec side of the end conversion, written from the words of the spec:
floor of `(end + 1) / 8` minus 1 for negative `end`, sentinel for
`0 ≤ end < 7`, floor of `(end - 7) / 8` otherwise. -/
def endByteSpec (b : Int) : ByteRes :=
  if b < 0 then .byte ((b + 1).fdiv 8 - 1)
  else if b < 7 then .sentinel
  else .byte ((b - 7).fdiv 8)

/-- C2: for every integer start, `_convert_to_start_byte` returns the
sentinel exactly for `-7 ≤ start < 0` and the floor of `(start + 7) / 8`
otherwise; in particular the five literal cases of the spec hold. -/
theorem c2_start_byte_conversion :
    (∀ b : Int, convert_to_start_byte (some b) = .ok (startByteSpec b)) ∧
    convert_to_start_byte (some (-16)) = .ok (.byte (-2)) ∧
    convert_to_start_byte (some (-8)) = .ok (.byte (-1)) ∧
    convert_to_start_byte (some (-7)) = .ok .sentinel ∧
    convert_to_start_byte (some 0) = .ok (.byte 0) ∧
    convert_to_start_byte (some 9) = .ok (.byte 2) := by
  refine ⟨fun b => ?_, by decide, by decide, by decide, by decide, by decide⟩
  by_cases hb : -7 ≤ b ∧ b < 0 <;>
    simp [convert_to_start_byte, startByteSpec, hb]

/-- C3: for every integer end, `_convert_to_end_byte` returns the floor of
`(end + 1) / 8` minus 1 for negative `end`, the sentinel for `0 ≤ end < 7`,
and the floor of `(end - 7) / 8` otherwise; in particular the five literal
cases of the spec hold. -/
theorem c3_end_byte_conversion :
    (∀ b : Int, convert_to_end_byte (some b) = .ok (endByteSpec b)) ∧
    convert_to_end_byte (some (-9)) = .ok (.byte (-2)) ∧
    convert_to_end_byte (some (-1)) = .ok (.byte (-1)) ∧
    convert_to_end_byte (some 6) = .ok .sentinel ∧
    convert_to_end_byte (some 7) = .ok (.byte 0) ∧
    convert_to_end_byte (some 127) = .ok (.byte 15) := by
  refine ⟨fun b => ?_, by decide, by decide, by decide, by decide, by decide⟩
  by_cases hb : b < 0
  · simp [convert_to_end_byte, endByteSpec, hb]
  · by_cases hb7 : b < 7 <;> simp [convert_to_end_byte, endByteSpec, hb, hb7]

/-- Two-byte bitmap whose only set bit is bit 8. -/
def mC1 : RBitmap := ⟨2, fun i => i == 8⟩

/-- C1 (failing evaluation): on the bitmap with only bit 8 set, the split
algorithm answers 1 for the range `[9, 9]` while the per-bit reference
answers 0.  The range contains no fully aligned byte but neither conversion
yields the sentinel (`start_byte = 2`, `end_byte = 0`), so the leading loop
walks bits 9..15 and the trailing loop walks bits 8..9, counting bit 8
which lies outside the requested range. -/
theorem c1_split_count_diverges :
    getCount mC1 (some 9) (some 9) = .ok 1 ∧ naiveCount mC1 9 9 = 0 := by
  decide

/-- Two-byte bitmap whose only set bit is bit 6, that is bit -10 counted
from the end of the 16-bit array. -/
def mC4 : RBitmap := ⟨2, fun i => i == 6⟩

/-- C4 (failing evaluation): for `get_count(-10, -1)` both conversions give
real byte indices (start byte -1, end byte -1) and the leading partial
region is bits -10 and -9, that is absolute bits 6 and 7 of the two-byte
array.  The reversed loop `xrange(-10, -8, -1)` is empty, so the set bit
-10 is never visited and the code returns 0, while the sum of the three
regions of the claim is 1 (the per-bit reference over absolute bits 6..15
counts it). -/
theorem c4_reversed_loop_misses_bits :
    getCount mC4 (some (-10)) (some (-1)) = .ok 0 ∧
    pyRange (-10) (-8) (-1) = [] ∧
    naiveCount mC4 6 15 = 1 := by
  decide

/-- One-byte bitmap whose only set bit is bit 2. -/
def mC5 : RBitmap := ⟨1, fun i => i == 2⟩

/-- C5 (counterexample): with exactly one bound omitted and the other equal
to 5, `get_count` raises a `TypeError` inside the byte conversion of the
missing bound instead of returning the whole-bitmap count 1; so the call
with exactly one bound omitted is neither total nor a whole-bitmap count. -/
theorem c5_one_sided_call_raises :
    getCount mC5 (some 5) none = .error .typeError ∧
    getCount mC5 none (some 5) = .error .typeError ∧
    bitcountWhole mC5 = 1 := by
  decide

/-- C5 (amended): omitting both bounds, or passing 0 for one bound and
omitting the other, delegates to the whole-bitmap native count; but
omitting exactly one bound while the other is a nonzero integer raises a
`TypeError` inside the byte conversion of the missing bound, so no count is
returned. -/
theorem c5_omitted_bounds :
    ∀ (m : RBitmap) (b : Int),
      getCount m none none = .ok (bitcountWhole m) ∧
      getCount m (some 0) none = .ok (bitcountWhole m) ∧
      getCount m none (some 0) = .ok (bitcountWhole m) ∧
      (b ≠ 0 →
        getCount m (some b) none = .error .typeError ∧
        getCount m none (some b) = .error .typeError) := by
  intro m b
  refine ⟨by simp [getCount, falsy], by simp [getCount, falsy],
    by simp [getCount, falsy], fun hb => ⟨?_, ?_⟩⟩
  · by_cases hc : -7 ≤ b ∧ b < 0 <;>
      simp [getCount, falsy, hb, convert_to_start_byte, convert_to_end_byte, hc]
  · simp [getCount, falsy, hb, convert_to_start_byte]

/-- C5 (witness for the amended statement): at the bitmap `mC5` and bound
5 the whole-count calls succeed and the one-sided calls fail. -/
theorem c5_omitted_bounds_witness :
    getCount mC5 none none = .ok (bitcountWhole mC5) ∧
    getCount mC5 (some 5) none = .error .typeError := by
  have h := c5_omitted_bounds mC5 5
  exact ⟨h.1, (h.2.2.2 (by decide)).1⟩

/-! Part 5: claims about composition arity, mark validation, and key naming -/

/-- String append is associative (data-level argument). -/
theorem strAppendAssoc (a b c : String) : a ++ b ++ c = a ++ (b ++ c) :=
  String.ext (by simp [String.data_append, List.append_assoc])

/-- The digit list of a natural number is never empty. -/
theorem natToDigits_ne_nil (n : Nat) : natToDigits n ≠ [] := by
  unfold natToDigits
  split <;> simp

/-- Any string starting with a rendered number is nonempty; the period
tokens are of this shape, so `_prefix_key` takes its event branch. -/
theorem natStr_append_ne_empty (n : Nat) (s : String) : ¬(natStr n ++ s = "") := by
  intro h
  have hd := congrArg String.data h
  simp only [String.data_append] at hd
  exact natToDigits_ne_nil n (List.append_eq_nil.mp hd).1

/-- A string starting with the literal `W` is nonempty (week tokens). -/
theorem w_append_ne_empty (s : String) : ¬("W" ++ s = "") := by
  intro h
  have hd := congrArg String.data h
  simp only [String.data_append] at hd
  simp at hd

/-- The empty store. -/
def st0 : Store := fun _ => none

/-- Every digit character has a code point between 48 and 57. -/
theorem digitChar_range : ∀ k, k < 10 → 48 ≤ (digitChar k).toNat ∧ (digitChar k).toNat ≤ 57 := by
  decide

/-- Digit characters are distinct for distinct digits. -/
theorem digitChar_inj_lt : ∀ a, a < 10 → ∀ b, b < 10 → digitChar a = digitChar b → a = b := by
  decide

/-- Every character of a rendered number is a digit character. -/
theorem natToDigits_shape : ∀ n c, c ∈ natToDigits n → ∃ k, k < 10 ∧ c = digitChar k := by
  intro n
  induction n using Nat.strong_induction_on with
  | _ n ih =>
    intro c hc
    unfold natToDigits at hc
    by_cases h10 : n < 10
    · simp [h10] at hc
      exact ⟨n, h10, hc⟩
    · simp [h10, List.mem_append] at hc
      rcases hc with hc | hc
      · exact ih (n / 10) (Nat.div_lt_self (by omega) (by omega)) c hc
      · exact ⟨n % 10, Nat.mod_lt n (by omega), hc⟩

/-- Every character of a rendered number has a code point in 48..57. -/
theorem natToDigits_code (n : Nat) (c : Char) (hc : c ∈ natToDigits n) :
    48 ≤ c.toNat ∧ c.toNat ≤ 57 := by
  obtain ⟨k, hk, rfl⟩ := natToDigits_shape n c hc
  exact digitChar_range k hk

/-- The hyphen is not a digit character, so it never occurs in a rendered
number. -/
theorem dash_not_mem_natToDigits (n : Nat) : ('-' : Char) ∉ natToDigits n := by
  intro h
  have := natToDigits_code n '-' h
  revert this
  decide

/-- The colon is not a digit character, so it never occurs in a rendered
number. -/
theorem colon_not_mem_natToDigits (n : Nat) : (':' : Char) ∉ natToDigits n := by
  intro h
  have := natToDigits_code n ':' h
  revert this
  decide

/-- The letter `W` is not a digit character. -/
theorem w_not_mem_natToDigits (n : Nat) : ('W' : Char) ∉ natToDigits n := by
  intro h
  have := natToDigits_code n 'W' h
  revert this
  decide

/-- The digit list of a number has positive length. -/
theorem natToDigits_length_pos (n : Nat) : 0 < (natToDigits n).length :=
  List.length_pos.mpr (natToDigits_ne_nil n)

/-- Distinct numbers render to distinct digit lists. -/
theorem natToDigits_inj : ∀ a b : Nat, natToDigits a = natToDigits b → a = b := by
  intro a
  induction a using Nat.strong_induction_on with
  | _ a ih =>
    intro b h
    unfold natToDigits at h
    by_cases ha : a < 10 <;> by_cases hb : b < 10
    · simp [ha, hb] at h
      exact digitChar_inj_lt a ha b hb h
    · simp [ha, hb] at h
      rcases hq : natToDigits (b / 10) with - | ⟨c, r⟩
      · exact absurd hq (natToDigits_ne_nil _)
      · rw [hq] at h
        simp at h
    · simp [ha, hb] at h
      rcases hq : natToDigits (a / 10) with - | ⟨c, r⟩
      · exact absurd hq (natToDigits_ne_nil _)
      · rw [hq] at h
        simp at h
    · simp [ha, hb] at h
      have hr := congrArg List.reverse h
      simp [List.reverse_append] at hr
      have h1 : a % 10 = b % 10 :=
        digitChar_inj_lt _ (Nat.mod_lt a (by omega)) _ (Nat.mod_lt b (by omega)) hr.1
      have h3 : a / 10 = b / 10 := ih (a / 10) (Nat.div_lt_self (by omega) (by omega)) _ hr.2
      omega

/-- Distinct numbers render to distinct strings. -/
theorem natStr_inj (a b : Nat) (h : natStr a = natStr b) : a = b :=
  natToDigits_inj a b (congrArg String.data h)

/-- Splitting a character list at a separator that does not occur in the
tails: the heads and the tails agree. -/
theorem sepSplit (sep : Char) :
    ∀ (a1 a2 b1 b2 : List Char), sep ∉ b1 → sep ∉ b2 →
      a1 ++ sep :: b1 = a2 ++ sep :: b2 → a1 = a2 ∧ b1 = b2 := by
  intro a1
  induction a1 with
  | nil =>
    intro a2 b1 b2 h1 h2 heq
    cases a2 with
    | nil =>
      simp at heq
      exact ⟨rfl, heq⟩
    | cons c r =>
      simp at heq
      obtain ⟨rfl, heq⟩ := heq
      exact absurd (heq ▸ List.mem_append_right r (List.mem_cons_self _ _)) h1
  | cons c r ih =>
    intro a2 b1 b2 h1 h2 heq
    cases a2 with
    | nil =>
      simp at heq
      obtain ⟨rfl, heq⟩ := heq
      exact absurd (heq ▸ List.mem_append_right r (List.mem_cons_self _ _)) h2
    | cons c2 r2 =>
      simp at heq
      obtain ⟨rfl, heq⟩ := heq
      obtain ⟨hr, hb⟩ := ih r2 b1 b2 h1 h2 heq
      exact ⟨by rw [hr], hb⟩

/-- C6 (counterexample): `bit_op_and` with zero operands does contact the
store: the BITOP command itself is issued (with destination
`trackist:bitop:AND:` and no source key) and the failure is the error reply
of the server to that command, not a client-side precheck. -/
theorem c6_zero_operand_issues_bitop :
    (bitOpRequest st0 "trackist" ":" 60 .AND []).2.1 =
      [.bitopCmd "AND" "trackist:bitop:AND:" []] ∧
    (bitOpRequest st0 "trackist" ":" 60 .AND []).2.2 = .error .responseError := by
  constructor <;> rfl

/-- C6 (amended): NOT with an operand count other than one fails in the
Python call machinery before any command is issued and leaves the store
untouched; AND, OR, XOR with zero operands issue exactly one BITOP command
which the server rejects with a wrong-arity error, so no EXPIRE follows and
the store data is unchanged. -/
theorem c6_operand_count_errors :
    ∀ (st : Store) (pfx d : String) (ttl : Nat) (ops : List String),
      (ops.length ≠ 1 →
        bitOpRequest st pfx d ttl .NOT ops = (st, [], .error .typeError)) ∧
      bitOpRequest st pfx d ttl .AND [] =
        (st, [.bitopCmd "AND" (bitopDest pfx d "AND" []) []], .error .responseError) ∧
      bitOpRequest st pfx d ttl .OR [] =
        (st, [.bitopCmd "OR" (bitopDest pfx d "OR" []) []], .error .responseError) ∧
      bitOpRequest st pfx d ttl .XOR [] =
        (st, [.bitopCmd "XOR" (bitopDest pfx d "XOR" []) []], .error .responseError) := by
  intro st pfx d ttl ops
  refine ⟨fun hops => ?_,
    by simp [bitOpRequest, bitOperation, storeBitop],
    by simp [bitOpRequest, bitOperation, storeBitop],
    by simp [bitOpRequest, bitOperation, storeBitop]⟩
  match ops with
  | [] => rfl
  | [k] => exact absurd rfl hops
  | k1 :: k2 :: rest => rfl

/-- C6 (witness for the amended statement): NOT with two operands fails
with the Python arity error, no command issued, store unchanged. -/
theorem c6_operand_count_errors_witness :
    bitOpRequest st0 "trackist" ":" 60 .NOT ["a", "b"] = (st0, [], .error .typeError) :=
  (c6_operand_count_errors st0 "trackist" ":" 60 ["a", "b"]).1 (by decide)

/-- C7: a single or bulk attribute mark with a value outside {0, 1} raises
`ValueError` before any SETBIT is issued, leaving the store unchanged; with
value 0 or 1 no such error is raised. -/
theorem c7_mark_value_guard :
    ∀ (st : Store) (pfx d name : String) (uuid : Nat ⊕ List Nat)
      (us : List Nat) (v : Int),
      (v ≠ 0 ∧ v ≠ 1 →
        markAttribute st pfx d name uuid v = (st, [], .error .valueError) ∧
        markAttributeMulti st pfx d name us v = (st, [], .error .valueError)) ∧
      (v = 0 ∨ v = 1 →
        (markAttribute st pfx d name uuid v).2.2 = .ok () ∧
        (markAttributeMulti st pfx d name us v).2.2 = .ok ()) := by
  intro st pfx d name uuid us v
  constructor
  · intro hv
    exact ⟨by simp [markAttribute, hv.1, hv.2], by simp [markAttributeMulti, hv.1, hv.2]⟩
  · intro hv
    have hc : ¬(v ≠ 0 ∧ v ≠ 1) := by rcases hv with h | h <;> simp [h]
    constructor
    · cases uuid with
      | inl u => simp [markAttribute, hc]
      | inr l => simp [markAttribute, markAttributeMulti, hc]
    · simp [markAttributeMulti, hc]

/-- C7 (witness): marking with value 4 fails and leaves the store as it
was; marking with value 1 succeeds. -/
theorem c7_mark_value_guard_witness :
    markAttribute st0 "trackist" ":" "active" (.inl 123) 4 =
      (st0, [], .error .valueError) ∧
    (markAttribute st0 "trackist" ":" "active" (.inl 123) 1).2.2 = .ok () := by
  refine ⟨((c7_mark_value_guard st0 "trackist" ":" "active" (.inl 123) [] 4).1
    (by decide)).1, ?_⟩
  exact ((c7_mark_value_guard st0 "trackist" ":" "active" (.inl 123) [] 1).2
    (by decide)).1

/-- C8: every store key follows the published template.  Event buckets join
prefix, `ev`, name, and the period token with the divider, the period
tokens being `year-month`, `Wisoyear-isoweek`, `year-month-day`, and
`year-month-day-hour`; attribute keys join prefix, `at`, name; derived
composition keys join prefix, `bitop`, the operation name, and the
hyphen-join of the ordered operand keys.  Keys are pure functions of these
inputs, so equal inputs give equal keys. -/
theorem c8_key_templates :
    ∀ (pfx d n opn : String) (y m dd h iy iw : Nat) (ops : List String),
      monthKey n pfx d y m =
        pfx ++ d ++ "ev" ++ d ++ n ++ d ++ (natStr y ++ "-" ++ natStr m) ∧
      weekKey n pfx d iy iw =
        pfx ++ d ++ "ev" ++ d ++ n ++ d ++ ("W" ++ natStr iy ++ "-" ++ natStr iw) ∧
      dayKey n pfx d y m dd =
        pfx ++ d ++ "ev" ++ d ++ n ++ d ++
          (natStr y ++ "-" ++ natStr m ++ "-" ++ natStr dd) ∧
      hourKey n pfx d y m dd h =
        pfx ++ d ++ "ev" ++ d ++ n ++ d ++
          (natStr y ++ "-" ++ natStr m ++ "-" ++ natStr dd ++ "-" ++ natStr h) ∧
      attrKey n pfx d = pfx ++ d ++ "at" ++ d ++ n ∧
      bitopDest pfx d opn ops =
        pfx ++ d ++ "bitop" ++ d ++ opn ++ d ++ strJoin "-" ops := by
  intro pfx d n opn y m dd h iy iw ops
  refine ⟨?_, ?_, ?_, ?_, ?_, ?_⟩
  · simp [monthKey, pfxKey, monthTok, strJoin, strAppendAssoc,
      natStr_append_ne_empty]
  · simp [weekKey, pfxKey, weekTok, strJoin, strAppendAssoc,
      w_append_ne_empty]
  · simp [dayKey, pfxKey, dayTok, strJoin, strAppendAssoc,
      natStr_append_ne_empty]
  · simp [hourKey, pfxKey, hourTok, strJoin, strAppendAssoc,
      natStr_append_ne_empty]
  · simp [attrKey, pfxKey, strJoin, strAppendAssoc]
  · simp [bitopDest, strJoin, strAppendAssoc]

/-! Part 6: period token facts, for the marking claim -/

theorem dashData : ("-" : String).data = ['-'] := rfl

theorem colonData : (":" : String).data = [':'] := rfl

theorem wData : ("W" : String).data = ['W'] := rfl

/-- Character list of a month token. -/
theorem monthTok_data (y m : Nat) :
    (monthTok y m).data = natToDigits y ++ '-' :: natToDigits m := by
  simp [monthTok, natStr, String.data_append, dashData]

/-- Character list of a week token. -/
theorem weekTok_data (y w : Nat) :
    (weekTok y w).data = 'W' :: (natToDigits y ++ '-' :: natToDigits w) := by
  simp [weekTok, natStr, String.data_append, dashData, wData]

/-- Character list of a day token, associated at the last separator. -/
theorem dayTok_data (y m d : Nat) :
    (dayTok y m d).data =
      (natToDigits y ++ '-' :: natToDigits m) ++ '-' :: natToDigits d := by
  simp [dayTok, natStr, String.data_append, dashData]

/-- Character list of an hour token, associated at the last separator. -/
theorem hourTok_data (y m d h : Nat) :
    (hourTok y m d h).data =
      ((natToDigits y ++ '-' :: natToDigits m) ++ '-' :: natToDigits d)
        ++ '-' :: natToDigits h := by
  simp [hourTok, natStr, String.data_append, dashData]

/-- Rendered numbers contain no hyphen, so they count zero hyphens. -/
theorem count_dash_natToDigits (n : Nat) : (natToDigits n).count '-' = 0 :=
  List.count_eq_zero.mpr (dash_not_mem_natToDigits n)

/-- Month tokens contain exactly one hyphen. -/
theorem count_dash_monthTok (y m : Nat) : ((monthTok y m).data).count '-' = 1 := by
  simp [monthTok_data, List.count_append, count_dash_natToDigits]

/-- Week tokens contain exactly one hyphen. -/
theorem count_dash_weekTok (y w : Nat) : ((weekTok y w).data).count '-' = 1 := by
  simp [weekTok_data, List.count_append, count_dash_natToDigits]

/-- Day tokens contain exactly two hyphens. -/
theorem count_dash_dayTok (y m d : Nat) : ((dayTok y m d).data).count '-' = 2 := by
  simp [dayTok_data, List.count_append, count_dash_natToDigits]

/-- Hour tokens contain exactly three hyphens. -/
theorem count_dash_hourTok (y m d h : Nat) : ((hourTok y m d h).data).count '-' = 3 := by
  simp [hourTok_data, List.count_append, count_dash_natToDigits]

/-- Week tokens start with `W`, every other token starts with a digit. -/
theorem weekTok_head_ne (iy iw : Nat) (l : List Char) (n : Nat)
    (h : (weekTok iy iw).data = natToDigits n ++ l) : False := by
  rw [weekTok_data] at h
  rcases hq : natToDigits n with - | ⟨c, r⟩
  · exact absurd hq (natToDigits_ne_nil _)
  · rw [hq] at h
    simp at h
    exact w_not_mem_natToDigits n (h.1 ▸ hq ▸ List.mem_cons_self _ _)

theorem monthTok_ne_weekTok (y m iy iw : Nat) : monthTok y m ≠ weekTok iy iw := by
  intro h
  exact weekTok_head_ne iy iw ('-' :: natToDigits m) y
    (by rw [← congrArg String.data h, monthTok_data])

theorem dayTok_ne_weekTok (y m d iy iw : Nat) : dayTok y m d ≠ weekTok iy iw := by
  intro h
  exact weekTok_head_ne iy iw ('-' :: natToDigits m ++ '-' :: natToDigits d) y
    (by rw [← congrArg String.data h, dayTok_data]; simp)

theorem hourTok_ne_weekTok (y m d hh iy iw : Nat) : hourTok y m d hh ≠ weekTok iy iw := by
  intro h
  exact weekTok_head_ne iy iw
    ('-' :: natToDigits m ++ '-' :: natToDigits d ++ '-' :: natToDigits hh) y
    (by rw [← congrArg String.data h, hourTok_data]; simp)

theorem monthTok_ne_dayTok (y m y2 m2 d2 : Nat) : monthTok y m ≠ dayTok y2 m2 d2 := by
  intro h
  have hc1 := count_dash_monthTok y m
  have hc2 := count_dash_dayTok y2 m2 d2
  rw [congrArg String.data h] at hc1
  omega

theorem monthTok_ne_hourTok (y m y2 m2 d2 h2 : Nat) : monthTok y m ≠ hourTok y2 m2 d2 h2 := by
  intro h
  have hc1 := count_dash_monthTok y m
  have hc2 := count_dash_hourTok y2 m2 d2 h2
  rw [congrArg String.data h] at hc1
  omega

theorem dayTok_ne_hourTok (y m d y2 m2 d2 h2 : Nat) : dayTok y m d ≠ hourTok y2 m2 d2 h2 := by
  intro h
  have hc1 := count_dash_dayTok y m d
  have hc2 := count_dash_hourTok y2 m2 d2 h2
  rw [congrArg String.data h] at hc1
  omega

/-- Month tokens determine their coordinates. -/
theorem monthTok_inj (y m y2 m2 : Nat) (h : monthTok y m = monthTok y2 m2) :
    y = y2 ∧ m = m2 := by
  have hd := congrArg String.data h
  rw [monthTok_data, monthTok_data] at hd
  obtain ⟨h1, h2⟩ := sepSplit '-' _ _ _ _
    (dash_not_mem_natToDigits m) (dash_not_mem_natToDigits m2) hd
  exact ⟨natToDigits_inj _ _ h1, natToDigits_inj _ _ h2⟩

/-- Week tokens determine their coordinates. -/
theorem weekTok_inj (y w y2 w2 : Nat) (h : weekTok y w = weekTok y2 w2) :
    y = y2 ∧ w = w2 := by
  have hd := congrArg String.data h
  rw [weekTok_data, weekTok_data] at hd
  simp only [List.cons.injEq, true_and] at hd
  obtain ⟨h1, h2⟩ := sepSplit '-' _ _ _ _
    (dash_not_mem_natToDigits w) (dash_not_mem_natToDigits w2) hd
  exact ⟨natToDigits_inj _ _ h1, natToDigits_inj _ _ h2⟩

/-- Day tokens determine their coordinates. -/
theorem dayTok_inj (y m d y2 m2 d2 : Nat) (h : dayTok y m d = dayTok y2 m2 d2) :
    y = y2 ∧ m = m2 ∧ d = d2 := by
  have hd := congrArg String.data h
  rw [dayTok_data, dayTok_data] at hd
  obtain ⟨h1, h2⟩ := sepSplit '-' _ _ _ _
    (dash_not_mem_natToDigits d) (dash_not_mem_natToDigits d2) hd
  obtain ⟨h3, h4⟩ := sepSplit '-' _ _ _ _
    (dash_not_mem_natToDigits m) (dash_not_mem_natToDigits m2) h1
  exact ⟨natToDigits_inj _ _ h3, natToDigits_inj _ _ h4, natToDigits_inj _ _ h2⟩

/-- Hour tokens determine their coordinates. -/
theorem hourTok_inj (y m d hh y2 m2 d2 h2 : Nat)
    (h : hourTok y m d hh = hourTok y2 m2 d2 h2) :
    y = y2 ∧ m = m2 ∧ d = d2 ∧ hh = h2 := by
  have hd := congrArg String.data h
  rw [hourTok_data, hourTok_data] at hd
  obtain ⟨h1, h2⟩ := sepSplit '-' _ _ _ _
    (dash_not_mem_natToDigits hh) (dash_not_mem_natToDigits h2) hd
  obtain ⟨h3, h4⟩ := sepSplit '-' _ _ _ _
    (dash_not_mem_natToDigits d) (dash_not_mem_natToDigits d2) h1
  obtain ⟨h5, h6⟩ := sepSplit '-' _ _ _ _
    (dash_not_mem_natToDigits m) (dash_not_mem_natToDigits m2) h3
  exact ⟨natToDigits_inj _ _ h5, natToDigits_inj _ _ h6,
    natToDigits_inj _ _ h4, natToDigits_inj _ _ h2⟩

/-- No token contains the default divider character. -/
theorem colon_not_mem_monthTok (y m : Nat) : (':' : Char) ∉ (monthTok y m).data := by
  rw [monthTok_data]
  simp [List.mem_append, colon_not_mem_natToDigits]

theorem colon_not_mem_weekTok (y w : Nat) : (':' : Char) ∉ (weekTok y w).data := by
  rw [weekTok_data]
  simp [List.mem_append, colon_not_mem_natToDigits]

theorem colon_not_mem_dayTok (y m d : Nat) : (':' : Char) ∉ (dayTok y m d).data := by
  rw [dayTok_data]
  simp [List.mem_append, colon_not_mem_natToDigits]

theorem colon_not_mem_hourTok (y m d h : Nat) : (':' : Char) ∉ (hourTok y m d h).data := by
  rw [hourTok_data]
  simp [List.mem_append, colon_not_mem_natToDigits]

/-- No token is the empty string. -/
theorem monthTok_ne_empty (y m : Nat) : monthTok y m ≠ "" := by
  intro h
  have := congrArg String.data h
  rw [monthTok_data] at this
  simp [natToDigits_ne_nil] at this

theorem weekTok_ne_empty (y w : Nat) : weekTok y w ≠ "" := by
  intro h
  have := congrArg String.data h
  rw [weekTok_data] at this
  simp at this

theorem dayTok_ne_empty (y m d : Nat) : dayTok y m d ≠ "" := by
  intro h
  have := congrArg String.data h
  rw [dayTok_data] at this
  simp [natToDigits_ne_nil] at this

theorem hourTok_ne_empty (y m d hh : Nat) : hourTok y m d hh ≠ "" := by
  intro h
  have := congrArg String.data h
  rw [hourTok_data] at this
  simp [natToDigits_ne_nil] at this

/-! Part 7: event keys with the default wiring, and the store effect of marking -/

theorem trackistData : ("trackist" : String).data =
    ['t', 'r', 'a', 'c', 'k', 'i', 's', 't'] := rfl

theorem evData : ("ev" : String).data = ['e', 'v'] := rfl

/-- Character list of an event key under the default prefix and divider. -/
theorem evKey_data (n tok : String) (h : tok ≠ "") :
    (pfxKey n "trackist" ":" (some tok)).data =
      't' :: 'r' :: 'a' :: 'c' :: 'k' :: 'i' :: 's' :: 't' :: ':' :: 'e' :: 'v' :: ':'
        :: (n.data ++ ':' :: tok.data) := by
  simp [pfxKey, h, strJoin, String.data_append, colonData, trackistData, evData]

/-- Under the default divider, an event key determines the event name and
the period token, because the token contains no divider character: the key
splits uniquely at its last colon. -/
theorem evKey_inj (n1 n2 t1 t2 : String) (h1 : t1 ≠ "") (h2 : t2 ≠ "")
    (hc1 : (':' : Char) ∉ t1.data) (hc2 : (':' : Char) ∉ t2.data)
    (h : pfxKey n1 "trackist" ":" (some t1) = pfxKey n2 "trackist" ":" (some t2)) :
    n1 = n2 ∧ t1 = t2 := by
  have hd := congrArg String.data h
  rw [evKey_data n1 t1 h1, evKey_data n2 t2 h2] at hd
  simp only [List.cons.injEq, true_and] at hd
  obtain ⟨ha, hb⟩ := sepSplit ':' _ _ _ _ hc1 hc2 hd
  exact ⟨String.ext ha, String.ext hb⟩

/-- Contrapositive form: different names or different tokens give
different event keys. -/
theorem evKey_tok_ne (n1 n2 t1 t2 : String) (h1 : t1 ≠ "") (h2 : t2 ≠ "")
    (hc1 : (':' : Char) ∉ t1.data) (hc2 : (':' : Char) ∉ t2.data)
    (hne : n1 ≠ n2 ∨ t1 ≠ t2) :
    pfxKey n1 "trackist" ":" (some t1) ≠ pfxKey n2 "trackist" ":" (some t2) := by
  intro heq
  obtain ⟨hn, ht⟩ := evKey_inj n1 n2 t1 t2 h1 h2 hc1 hc2 heq
  rcases hne with hne | hne
  · exact hne hn
  · exact hne ht

/-- Membership only depends on the value stored at the inspected key. -/
theorem containsB_congr (st1 st2 : Store) (k : String) (u : Nat)
    (h : st1 k = st2 k) : containsB st1 k u = containsB st2 k u := by
  simp [containsB, h]

/-- After SETBIT of `u` to 1, the bit reads back as set. -/
theorem containsB_storeSetbit_self (st : Store) (k : String) (u : Nat) :
    containsB (storeSetbit st k u true) k u = true := by
  simp [containsB, storeSetbit, setbitB]
  omega

/-- SETBIT of `u` to 1 anywhere never clears a set bit `u`. -/
theorem containsB_storeSetbit_preserve (st : Store) (k k2 : String) (u : Nat)
    (h : containsB st k u = true) : containsB (storeSetbit st k2 u true) k u = true := by
  by_cases hk : k = k2
  · subst hk
    exact containsB_storeSetbit_self st k u
  · simpa [containsB, storeSetbit, hk] using h

/-- SETBIT leaves every other key untouched. -/
theorem storeSetbit_other (st : Store) (k k2 : String) (u : Nat) (v : Bool)
    (h : k ≠ k2) : storeSetbit st k2 u v k = st k := by
  simp [storeSetbit, h]

/-- A pipeline of SETBITs of `u` to 1 never clears a set bit `u`. -/
theorem foldlSetbit_preserve (u : Nat) :
    ∀ (ks : List String) (st : Store) (k : String), containsB st k u = true →
      containsB (ks.foldl (fun s kk => storeSetbit s kk u true) st) k u = true := by
  intro ks
  induction ks with
  | nil => intro st k h; exact h
  | cons a rest ih =>
    intro st k h
    exact ih _ _ (containsB_storeSetbit_preserve st k a u h)

/-- After a pipeline of SETBITs of `u` to 1, every touched key has the bit
set. -/
theorem foldlSetbit_mem (u : Nat) :
    ∀ (ks : List String) (st : Store) (k : String), k ∈ ks →
      containsB (ks.foldl (fun s kk => storeSetbit s kk u true) st) k u = true := by
  intro ks
  induction ks with
  | nil => intro st k h; cases h
  | cons a rest ih =>
    intro st k h
    rcases List.mem_cons.mp h with rfl | h
    · exact foldlSetbit_preserve u rest _ k (containsB_storeSetbit_self st k u)
    · exact ih _ _ h

/-- A pipeline of SETBITs leaves every untouched key as it was. -/
theorem foldlSetbit_notmem (u : Nat) :
    ∀ (ks : List String) (st : Store) (k : String), k ∉ ks →
      ks.foldl (fun s kk => storeSetbit s kk u true) st k = st k := by
  intro ks
  induction ks with
  | nil => intro st k _; rfl
  | cons a rest ih =>
    intro st k h
    rw [List.foldl_cons, ih _ _ (fun hm => h (List.mem_cons_of_mem a hm))]
    exact storeSetbit_other st k a u true (fun hk => h (hk ▸ List.mem_cons_self a rest))

/-- The previous-hour coordinates always differ from the given ones. -/
theorem prevHourCoords_ne (y m d h : Nat) : prevHourCoords y m d h ≠ (y, m, d, h) := by
  by_cases hh : 0 < h
  · intro heq
    have := congrArg (fun t => t.2.2.2) heq
    simp [prevHourCoords, hh] at this
    omega
  · intro heq
    have := congrArg (fun t => t.2.2.2) heq
    simp [prevHourCoords, hh] at this
    omega

/-- The previous-day coordinates always differ from the given ones. -/
theorem prevDayCoords_ne (y m d : Nat) : prevDayCoords y m d ≠ (y, m, d) := by
  by_cases hd : 1 < d
  · intro heq
    have := congrArg (fun t => t.2.2) heq
    simp [prevDayCoords, hd] at this
    omega
  · by_cases hm : 1 < m
    · intro heq
      have := congrArg (fun t => t.2.1) heq
      simp [prevDayCoords, hd, hm] at this
      omega
    · intro heq
      have := congrArg (fun t => t.2.1) heq
      simp [prevDayCoords, hd, hm] at this
      omega

/-- An ISO year has at least 52 weeks in this model. -/
theorem isoWeeksInYear_ge (y : Nat) : 52 ≤ isoWeeksInYear y := by
  unfold isoWeeksInYear
  simp only []
  split <;> omega

/-- The previous-week coordinates always differ from the given ones. -/
theorem prevWeekCoords_ne (iy iw : Nat) : prevWeekCoords iy iw ≠ (iy, iw) := by
  by_cases hw : 1 < iw
  · intro heq
    have := congrArg (fun t => t.2) heq
    simp [prevWeekCoords, hw] at this
    omega
  · intro heq
    have := congrArg (fun t => t.2) heq
    simp [prevWeekCoords, hw] at this
    have := isoWeeksInYear_ge (iy - 1)
    omega

/-- Marking an event writes only its four bucket keys: any other key keeps
its value, hence its memberships. -/
theorem markEvent_preserves (st : Store) (n : String) (uuid u y m dd hh iy iw : Nat)
    (k : String)
    (h1 : k ≠ monthKey n "trackist" ":" y m)
    (h2 : k ≠ weekKey n "trackist" ":" iy iw)
    (h3 : k ≠ dayKey n "trackist" ":" y m dd)
    (h4 : k ≠ hourKey n "trackist" ":" y m dd hh) :
    containsB (markEvent st "trackist" ":" n y m dd hh iy iw true true true true uuid) k u
      = containsB st k u := by
  refine containsB_congr _ _ _ _ ?_
  unfold markEvent
  exact foldlSetbit_notmem uuid _ st k (by simp [markedEventKeys, h1, h2, h3, h4])

/-- Marking an event sets the identity in all four bucket keys. -/
theorem markEvent_sets (st : Store) (n : String) (uuid y m dd hh iy iw : Nat) :
    containsB (markEvent st "trackist" ":" n y m dd hh iy iw true true true true uuid)
      (monthKey n "trackist" ":" y m) uuid = true ∧
    containsB (markEvent st "trackist" ":" n y m dd hh iy iw true true true true uuid)
      (weekKey n "trackist" ":" iy iw) uuid = true ∧
    containsB (markEvent st "trackist" ":" n y m dd hh iy iw true true true true uuid)
      (dayKey n "trackist" ":" y m dd) uuid = true ∧
    containsB (markEvent st "trackist" ":" n y m dd hh iy iw true true true true uuid)
      (hourKey n "trackist" ":" y m dd hh) uuid = true := by
  refine ⟨?_, ?_, ?_, ?_⟩ <;>
    · unfold markEvent
      exact foldlSetbit_mem uuid _ st _ (by simp [markedEventKeys])

/-- The previous-hour bucket key differs from all four marked keys. -/
theorem prevHourKey_ne_marked (n : String) (y m dd hh iy iw : Nat) :
    hourKey n "trackist" ":" (prevHourCoords y m dd hh).1 (prevHourCoords y m dd hh).2.1
        (prevHourCoords y m dd hh).2.2.1 (prevHourCoords y m dd hh).2.2.2
      ≠ monthKey n "trackist" ":" y m ∧
    hourKey n "trackist" ":" (prevHourCoords y m dd hh).1 (prevHourCoords y m dd hh).2.1
        (prevHourCoords y m dd hh).2.2.1 (prevHourCoords y m dd hh).2.2.2
      ≠ weekKey n "trackist" ":" iy iw ∧
    hourKey n "trackist" ":" (prevHourCoords y m dd hh).1 (prevHourCoords y m dd hh).2.1
        (prevHourCoords y m dd hh).2.2.1 (prevHourCoords y m dd hh).2.2.2
      ≠ dayKey n "trackist" ":" y m dd ∧
    hourKey n "trackist" ":" (prevHourCoords y m dd hh).1 (prevHourCoords y m dd hh).2.1
        (prevHourCoords y m dd hh).2.2.1 (prevHourCoords y m dd hh).2.2.2
      ≠ hourKey n "trackist" ":" y m dd hh := by
  refine ⟨?_, ?_, ?_, ?_⟩ <;> simp only [hourKey, monthKey, weekKey, dayKey]
  · exact evKey_tok_ne n n _ _ (hourTok_ne_empty _ _ _ _) (monthTok_ne_empty _ _)
      (colon_not_mem_hourTok _ _ _ _) (colon_not_mem_monthTok _ _)
      (Or.inr fun ht => monthTok_ne_hourTok y m _ _ _ _ ht.symm)
  · exact evKey_tok_ne n n _ _ (hourTok_ne_empty _ _ _ _) (weekTok_ne_empty _ _)
      (colon_not_mem_hourTok _ _ _ _) (colon_not_mem_weekTok _ _)
      (Or.inr fun ht => hourTok_ne_weekTok _ _ _ _ _ _ ht)
  · exact evKey_tok_ne n n _ _ (hourTok_ne_empty _ _ _ _) (dayTok_ne_empty _ _ _)
      (colon_not_mem_hourTok _ _ _ _) (colon_not_mem_dayTok _ _ _)
      (Or.inr fun ht => dayTok_ne_hourTok y m dd _ _ _ _ ht.symm)
  · refine evKey_tok_ne n n _ _ (hourTok_ne_empty _ _ _ _) (hourTok_ne_empty _ _ _ _)
      (colon_not_mem_hourTok _ _ _ _) (colon_not_mem_hourTok _ _ _ _)
      (Or.inr fun ht => ?_)
    obtain ⟨e1, e2, e3, e4⟩ := hourTok_inj _ _ _ _ _ _ _ _ ht
    refine prevHourCoords_ne y m dd hh ?_
    have hP : prevHourCoords y m dd hh =
        ((prevHourCoords y m dd hh).1, (prevHourCoords y m dd hh).2.1,
         (prevHourCoords y m dd hh).2.2.1, (prevHourCoords y m dd hh).2.2.2) := rfl
    rw [hP, e1, e2, e3, e4]

/-- The previous-day bucket key differs from all four marked keys. -/
theorem prevDayKey_ne_marked (n : String) (y m dd hh iy iw : Nat) :
    dayKey n "trackist" ":" (prevDayCoords y m dd).1 (prevDayCoords y m dd).2.1
        (prevDayCoords y m dd).2.2
      ≠ monthKey n "trackist" ":" y m ∧
    dayKey n "trackist" ":" (prevDayCoords y m dd).1 (prevDayCoords y m dd).2.1
        (prevDayCoords y m dd).2.2
      ≠ weekKey n "trackist" ":" iy iw ∧
    dayKey n "trackist" ":" (prevDayCoords y m dd).1 (prevDayCoords y m dd).2.1
        (prevDayCoords y m dd).2.2
      ≠ dayKey n "trackist" ":" y m dd ∧
    dayKey n "trackist" ":" (prevDayCoords y m dd).1 (prevDayCoords y m dd).2.1
        (prevDayCoords y m dd).2.2
      ≠ hourKey n "trackist" ":" y m dd hh := by
  refine ⟨?_, ?_, ?_, ?_⟩ <;> simp only [hourKey, monthKey, weekKey, dayKey]
  · exact evKey_tok_ne n n _ _ (dayTok_ne_empty _ _ _) (monthTok_ne_empty _ _)
      (colon_not_mem_dayTok _ _ _) (colon_not_mem_monthTok _ _)
      (Or.inr fun ht => monthTok_ne_dayTok y m _ _ _ ht.symm)
  · exact evKey_tok_ne n n _ _ (dayTok_ne_empty _ _ _) (weekTok_ne_empty _ _)
      (colon_not_mem_dayTok _ _ _) (colon_not_mem_weekTok _ _)
      (Or.inr fun ht => dayTok_ne_weekTok _ _ _ _ _ ht)
  · refine evKey_tok_ne n n _ _ (dayTok_ne_empty _ _ _) (dayTok_ne_empty _ _ _)
      (colon_not_mem_dayTok _ _ _) (colon_not_mem_dayTok _ _ _)
      (Or.inr fun ht => ?_)
    obtain ⟨e1, e2, e3⟩ := dayTok_inj _ _ _ _ _ _ ht
    refine prevDayCoords_ne y m dd ?_
    have hP : prevDayCoords y m dd =
        ((prevDayCoords y m dd).1, (prevDayCoords y m dd).2.1,
         (prevDayCoords y m dd).2.2) := rfl
    rw [hP, e1, e2, e3]
  · exact evKey_tok_ne n n _ _ (dayTok_ne_empty _ _ _) (hourTok_ne_empty _ _ _ _)
      (colon_not_mem_dayTok _ _ _) (colon_not_mem_hourTok _ _ _ _)
      (Or.inr fun ht => dayTok_ne_hourTok _ _ _ y m dd hh ht)

/-- The previous-week bucket key differs from all four marked keys. -/
theorem prevWeekKey_ne_marked (n : String) (y m dd hh iy iw : Nat) :
    weekKey n "trackist" ":" (prevWeekCoords iy iw).1 (prevWeekCoords iy iw).2
      ≠ monthKey n "trackist" ":" y m ∧
    weekKey n "trackist" ":" (prevWeekCoords iy iw).1 (prevWeekCoords iy iw).2
      ≠ weekKey n "trackist" ":" iy iw ∧
    weekKey n "trackist" ":" (prevWeekCoords iy iw).1 (prevWeekCoords iy iw).2
      ≠ dayKey n "trackist" ":" y m dd ∧
    weekKey n "trackist" ":" (prevWeekCoords iy iw).1 (prevWeekCoords iy iw).2
      ≠ hourKey n "trackist" ":" y m dd hh := by
  refine ⟨?_, ?_, ?_, ?_⟩ <;> simp only [hourKey, monthKey, weekKey, dayKey]
  · exact evKey_tok_ne n n _ _ (weekTok_ne_empty _ _) (monthTok_ne_empty _ _)
      (colon_not_mem_weekTok _ _) (colon_not_mem_monthTok _ _)
      (Or.inr fun ht => monthTok_ne_weekTok y m _ _ ht.symm)
  · refine evKey_tok_ne n n _ _ (weekTok_ne_empty _ _) (weekTok_ne_empty _ _)
      (colon_not_mem_weekTok _ _) (colon_not_mem_weekTok _ _)
      (Or.inr fun ht => ?_)
    obtain ⟨e1, e2⟩ := weekTok_inj _ _ _ _ ht
    refine prevWeekCoords_ne iy iw ?_
    have hP : prevWeekCoords iy iw =
        ((prevWeekCoords iy iw).1, (prevWeekCoords iy iw).2) := rfl
    rw [hP, e1, e2]
  · exact evKey_tok_ne n n _ _ (weekTok_ne_empty _ _) (dayTok_ne_empty _ _ _)
      (colon_not_mem_weekTok _ _) (colon_not_mem_dayTok _ _ _)
      (Or.inr fun ht => dayTok_ne_weekTok y m dd _ _ ht.symm)
  · exact evKey_tok_ne n n _ _ (weekTok_ne_empty _ _) (hourTok_ne_empty _ _ _ _)
      (colon_not_mem_weekTok _ _) (colon_not_mem_hourTok _ _ _ _)
      (Or.inr fun ht => hourTok_ne_weekTok y m dd hh _ _ ht.symm)

/-- Buckets of a different event name keep their value under marking,
whatever their period token looks like. -/
theorem otherName_preserved (st : Store) (n n2 : String) (hnn : n2 ≠ n)
    (uuid u y m dd hh iy iw : Nat) (t2 : String) (ht2 : t2 ≠ "")
    (hc2 : (':' : Char) ∉ t2.data) :
    containsB (markEvent st "trackist" ":" n y m dd hh iy iw true true true true uuid)
        (pfxKey n2 "trackist" ":" (some t2)) u
      = containsB st (pfxKey n2 "trackist" ":" (some t2)) u := by
  refine markEvent_preserves st n uuid u y m dd hh iy iw _ ?_ ?_ ?_ ?_ <;>
    simp only [hourKey, monthKey, weekKey, dayKey]
  · exact evKey_tok_ne n2 n t2 _ ht2 (monthTok_ne_empty _ _) hc2
      (colon_not_mem_monthTok _ _) (Or.inl hnn)
  · exact evKey_tok_ne n2 n t2 _ ht2 (weekTok_ne_empty _ _) hc2
      (colon_not_mem_weekTok _ _) (Or.inl hnn)
  · exact evKey_tok_ne n2 n t2 _ ht2 (dayTok_ne_empty _ _ _) hc2
      (colon_not_mem_dayTok _ _ _) (Or.inl hnn)
  · exact evKey_tok_ne n2 n t2 _ ht2 (hourTok_ne_empty _ _ _ _) hc2
      (colon_not_mem_hourTok _ _ _ _) (Or.inl hnn)

/-- C9: with the default wiring, marking an event with all four
granularities selected makes the identity a member of the month, week, day,
and hour buckets of the given calendar coordinates; it does not change
membership in the previous hour, previous day, or previous week bucket (so
it cannot make the identity a member there), nor in any bucket of a
different event name. -/
theorem c9_mark_event_membership :
    ∀ (st : Store) (n n2 : String) (uuid y m dd hh iy iw : Nat),
      (containsB (markEvent st "trackist" ":" n y m dd hh iy iw true true true true uuid)
          (monthKey n "trackist" ":" y m) uuid = true ∧
       containsB (markEvent st "trackist" ":" n y m dd hh iy iw true true true true uuid)
          (weekKey n "trackist" ":" iy iw) uuid = true ∧
       containsB (markEvent st "trackist" ":" n y m dd hh iy iw true true true true uuid)
          (dayKey n "trackist" ":" y m dd) uuid = true ∧
       containsB (markEvent st "trackist" ":" n y m dd hh iy iw true true true true uuid)
          (hourKey n "trackist" ":" y m dd hh) uuid = true) ∧
      (containsB (markEvent st "trackist" ":" n y m dd hh iy iw true true true true uuid)
          (hourKey n "trackist" ":" (prevHourCoords y m dd hh).1
            (prevHourCoords y m dd hh).2.1 (prevHourCoords y m dd hh).2.2.1
            (prevHourCoords y m dd hh).2.2.2) uuid
         = containsB st (hourKey n "trackist" ":" (prevHourCoords y m dd hh).1
            (prevHourCoords y m dd hh).2.1 (prevHourCoords y m dd hh).2.2.1
            (prevHourCoords y m dd hh).2.2.2) uuid ∧
       containsB (markEvent st "trackist" ":" n y m dd hh iy iw true true true true uuid)
          (dayKey n "trackist" ":" (prevDayCoords y m dd).1
            (prevDayCoords y m dd).2.1 (prevDayCoords y m dd).2.2) uuid
         = containsB st (dayKey n "trackist" ":" (prevDayCoords y m dd).1
            (prevDayCoords y m dd).2.1 (prevDayCoords y m dd).2.2) uuid ∧
       containsB (markEvent st "trackist" ":" n y m dd hh iy iw true true true true uuid)
          (weekKey n "trackist" ":" (prevWeekCoords iy iw).1 (prevWeekCoords iy iw).2) uuid
         = containsB st
            (weekKey n "trackist" ":" (prevWeekCoords iy iw).1 (prevWeekCoords iy iw).2) uuid) ∧
      (n2 ≠ n → ∀ (y2 m2 d2 h2 iy2 iw2 : Nat),
        containsB (markEvent st "trackist" ":" n y m dd hh iy iw true true true true uuid)
            (monthKey n2 "trackist" ":" y2 m2) uuid
          = containsB st (monthKey n2 "trackist" ":" y2 m2) uuid ∧
        containsB (markEvent st "trackist" ":" n y m dd hh iy iw true true true true uuid)
            (weekKey n2 "trackist" ":" iy2 iw2) uuid
          = containsB st (weekKey n2 "trackist" ":" iy2 iw2) uuid ∧
        containsB (markEvent st "trackist" ":" n y m dd hh iy iw true true true true uuid)
            (dayKey n2 "trackist" ":" y2 m2 d2) uuid
          = containsB st (dayKey n2 "trackist" ":" y2 m2 d2) uuid ∧
        containsB (markEvent st "trackist" ":" n y m dd hh iy iw true true true true uuid)
            (hourKey n2 "trackist" ":" y2 m2 d2 h2) uuid
          = containsB st (hourKey n2 "trackist" ":" y2 m2 d2 h2) uuid) := by
  intro st n n2 uuid y m dd hh iy iw
  obtain ⟨q1, q2, q3, q4⟩ := prevHourKey_ne_marked n y m dd hh iy iw
  obtain ⟨r1, r2, r3, r4⟩ := prevDayKey_ne_marked n y m dd hh iy iw
  obtain ⟨w1, w2, w3, w4⟩ := prevWeekKey_ne_marked n y m dd hh iy iw
  refine ⟨markEvent_sets st n uuid y m dd hh iy iw,
    ⟨markEvent_preserves st n uuid uuid y m dd hh iy iw _ q1 q2 q3 q4,
     markEvent_preserves st n uuid uuid y m dd hh iy iw _ r1 r2 r3 r4,
     markEvent_preserves st n uuid uuid y m dd hh iy iw _ w1 w2 w3 w4⟩,
    fun hnn y2 m2 d2 h2 iy2 iw2 => ⟨?_, ?_, ?_, ?_⟩⟩
  · exact otherName_preserved st n n2 hnn uuid uuid y m dd hh iy iw
      (monthTok y2 m2) (monthTok_ne_empty _ _) (colon_not_mem_monthTok _ _)
  · exact otherName_preserved st n n2 hnn uuid uuid y m dd hh iy iw
      (weekTok iy2 iw2) (weekTok_ne_empty _ _) (colon_not_mem_weekTok _ _)
  · exact otherName_preserved st n n2 hnn uuid uuid y m dd hh iy iw
      (dayTok y2 m2 d2) (dayTok_ne_empty _ _ _) (colon_not_mem_dayTok _ _ _)
  · exact otherName_preserved st n n2 hnn uuid uuid y m dd hh iy iw
      (hourTok y2 m2 d2 h2) (hourTok_ne_empty _ _ _ _) (colon_not_mem_hourTok _ _ _ _)

/-- C9 (witness): marking `active` for identity 123 at 2012-10-23 13h (ISO
week 2012-W43) sets the hour bucket bit, and leaves a bucket of the
different name `other` untouched. -/
theorem c9_mark_event_membership_witness :
    containsB (markEvent st0 "trackist" ":" "active" 2012 10 23 13 2012 43
        true true true true 123)
      (hourKey "active" "trackist" ":" 2012 10 23 13) 123 = true ∧
    containsB (markEvent st0 "trackist" ":" "active" 2012 10 23 13 2012 43
        true true true true 123)
      (monthKey "other" "trackist" ":" 2012 10) 123
      = containsB st0 (monthKey "other" "trackist" ":" 2012 10) 123 := by
  have h := c9_mark_event_membership st0 "active" "other" 123 2012 10 23 13 2012 43
  exact ⟨h.1.2.2.2, (h.2.2 (by decide) 2012 10 23 13 2012 43).1⟩

/-- Bitmap with bits 3 and 9 set, separating a whole count (2) from the
count of the one-bit range `[0, 0]` (0). -/
def mC10 : RBitmap := ⟨2, fun i => i == 3 || i == 9⟩

/-- C10: passing 0 for both bounds takes the same delegation branch as
omitting both bounds and returns the whole-bitmap population count, not the
count of the one-bit range `[0, 0]`: on `mC10` it returns 2 while the
per-bit reference over `[0, 0]` returns 0. -/
theorem c10_zero_bounds_whole_count :
    (∀ m : RBitmap,
      getCount m (some 0) (some 0) = .ok (bitcountWhole m) ∧
      getCount m (some 0) (some 0) = getCount m none none) ∧
    getCount mC10 (some 0) (some 0) = .ok 2 ∧
    naiveCount mC10 0 0 = 0 := by
  refine ⟨fun m => ⟨by simp [getCount, falsy], by simp [getCount, falsy]⟩,
    by decide, by decide⟩

end Bitmapist
